import Mathlib

/-!
Shallow embedding of the nosql-flowchart-maker core logic:
the process-flow resolver, connection validator, derived-name resolver,
undo journal and persistence sanitiser from
src/components/FlowEditor.tsx, src/context/DatabaseContext.tsx and
src/services/firestoreService.ts.
-/

namespace NFM

/-- A document/array field: `{ name, type }` from the source's `Field`. -/
structure Field where
  name : String
  ftype : String
deriving DecidableEq, BEq

/-- A recorded process action (`processActions` entries built in PropertiesModal):
either a document action or a field action, with optional value override. -/
structure Action where
  atype : String
  nodeId : String
  fieldName : String
  valueType : Option String
  fixedValue : Option String
  savedAt : Nat
deriving DecidableEq, BEq

/-- The `{ valueType, fixedValue }` record stored in `cumulativeFieldValues`. -/
structure FieldValue where
  valueType : String
  fixedValue : Option String
deriving DecidableEq, BEq

/-- The node's `data` payload: label, fields, process actions and the derived
array-node attributes (`_connectedFieldName`, `_sourceDocumentLabel`,
`_isAutoNamed`, `_cumulativeFieldValues`). -/
structure NodeData where
  label : String
  fields : List Field
  processActions : List Action
  connectedFieldName : Option String
  sourceLabel : Option String
  isAutoNamed : Bool
  cumulativeFieldValues : Option (List (String × FieldValue))
deriving DecidableEq, BEq

/-- A react-flow node: id, type string and data. -/
structure FlowNode where
  id : String
  ntype : String
  data : NodeData
deriving DecidableEq, BEq

/-- A react-flow edge with optional source/target handles. -/
structure FlowEdge where
  id : String
  source : String
  target : String
  sourceHandle : Option String
  targetHandle : Option String
deriving DecidableEq, BEq

/-- The graph model: the node and edge lists held by DatabaseContext. -/
structure Graph where
  nodes : List FlowNode
  edges : List FlowEdge
deriving DecidableEq, BEq

/-- Build a node whose derived attributes are at their defaults. -/
def mkNode (id ntype label : String) (fields : List Field)
    (actions : List Action) : FlowNode :=
  ⟨id, ntype, ⟨label, fields, actions, none, none, false, none⟩⟩

/-- JS `Map`-style association-list lookup (`map.get(k)`). -/
def lookupKV {V : Type} : List (String × V) → String → Option V
  | [], _ => none
  | p :: rest, k => if p.1 == k then some p.2 else lookupKV rest k

/-- JS `Map.set`: replace in place when the key exists, append otherwise. -/
def setKV {V : Type} : List (String × V) → String → V → List (String × V)
  | [], k, v => [(k, v)]
  | p :: rest, k, v => if p.1 == k then (k, v) :: rest else p :: setKV rest k v

/-- JS `Set.add` on an insertion-ordered list. -/
def addToSet (l : List String) (x : String) : List String :=
  if l.contains x then l else l ++ [x]

/-- The first node whose id matches, as in `nodes.find(n => n.id === id)`. -/
def listNodeById (nodes : List FlowNode) (i : String) : Option FlowNode :=
  nodes.find? (fun n => n.id == i)

/-- The first node of the graph whose id matches. -/
def nodeById (g : Graph) (i : String) : Option FlowNode :=
  listNodeById g.nodes i

/-- Character-list lexicographic less-or-equal, mirroring the JS default
string comparison used by `Array.prototype.sort()`. -/
def charListLe : List Char → List Char → Bool
  | [], _ => true
  | _ :: _, [] => false
  | a :: as, b :: bs =>
    if a.toNat < b.toNat then true
    else if b.toNat < a.toNat then false
    else charListLe as bs

/-- String comparison used for sorting successor ids. -/
def strLe (s t : String) : Bool := charListLe s.data t.data

/-- Insert a string into an ascending list, keeping it sorted. -/
def insertStr (a : String) : List String → List String
  | [] => [a]
  | b :: l => if strLe a b then a :: b :: l else b :: insertStr a l

/-- Ascending sort of string ids, as `connections.sort()` does in JS. -/
def sortStrings : List String → List String
  | [] => []
  | a :: l => insertStr a (sortStrings l)

/-- Split a character list at a separator character, as JS `split`. -/
def splitCharAux (c : Char) : List Char → List Char → List String
  | [], acc => [String.mk acc.reverse]
  | d :: rest, acc =>
    if d == c then String.mk acc.reverse :: splitCharAux c rest []
    else splitCharAux c rest (d :: acc)

/-- JS `handle.split('-')`. -/
def splitDash (s : String) : List String := splitCharAux '-' s.data []

/-- Parse a decimal numeral, `none` when the string is empty or non-numeric,
mirroring `parseInt` on the well-formed handle parts the editor produces. -/
def parseNatAux : List Char → Nat → Option Nat
  | [], acc => some acc
  | c :: rest, acc =>
    if c.isDigit then parseNatAux rest (acc * 10 + (c.toNat - 48)) else none

/-- `parseInt(handleParts[i])` on handle fragments. -/
def parseIntJs (s : String) : Option Nat :=
  match s.data with
  | [] => none
  | _ :: _ => parseNatAux s.data 0

/-- Whether an optional handle string starts with the given text. -/
def shStarts (h : Option String) (p : String) : Bool :=
  match h with
  | some s => (s.data.take p.data.length) == p.data
  | none => false

/-- The field referenced by a handle such as `array-0-right` (part index 1)
or `array-field-2-right` (part index 2): split, parse the indexed part,
then index into the source node's field list. -/
def fieldAtHandle (n : FlowNode) (h : Option String) (idxPos : Nat) : Option Field :=
  match h with
  | none => none
  | some s =>
    match (splitDash s)[idxPos]? with
    | none => none
    | some part =>
      match parseIntJs part with
      | none => none
      | some i => n.data.fields[i]?

/- ## Process Flow Resolver (FlowEditor.getVisibleNodesWithFilteredFields) -/

/-- All process nodes, in node-list order. -/
def processNodes (g : Graph) : List FlowNode :=
  g.nodes.filter (fun n => n.ntype == "process")

/-- An edge counted by the flow graph: both endpoints resolve to process
nodes, the source handle is an output (`right`/`bottom`) and the target
handle an input (`left`/`top`). -/
def isQualifyingProcessEdge (g : Graph) (e : FlowEdge) : Bool :=
  (match nodeById g e.source with
   | some n => n.ntype == "process"
   | none => false) &&
  (match nodeById g e.target with
   | some n => n.ntype == "process"
   | none => false) &&
  (e.sourceHandle == some "right" || e.sourceHandle == some "bottom") &&
  (e.targetHandle == some "left" || e.targetHandle == some "top")

/-- `processConnections.get(pid)`: qualifying successor ids, in edge order. -/
def processConnections (g : Graph) (pid : String) : List String :=
  (g.edges.filter (fun e => isQualifyingProcessEdge g e && e.source == pid)).map
    (fun e => e.target)

/-- `incomingConnections.get(pid)`: qualifying predecessor ids, in edge order. -/
def incomingConnections (g : Graph) (pid : String) : List String :=
  (g.edges.filter (fun e => isQualifyingProcessEdge g e && e.target == pid)).map
    (fun e => e.source)

/-- `findStartingProcess`: the first process node with no qualifying incoming
edge, falling back to the first process node. -/
def findStartingProcess (g : Graph) : Option String :=
  match (processNodes g).find? (fun p => (incomingConnections g p.id).isEmpty) with
  | some p => some p.id
  | none =>
    match (processNodes g).head? with
    | some p => some p.id
    | none => none

/-- Fuel-indexed depth-first visit accumulating the chain; the visited set and
the chain coincide because the source appends to both together. -/
def dfsChain (succ : String → List String) (guard : String → Bool) :
    Nat → String → List String → List String
  | 0, _, ch => ch
  | fuel + 1, p, ch =>
    if ch.contains p then ch
    else
      (succ p).foldl
        (fun acc c => if guard c then dfsChain succ guard fuel c acc else acc)
        (ch ++ [p])

/-- `buildFlowChain`: depth-first traversal from the starting process over
sorted successor ids, guarded (as the source does) by the successor being a
process node. -/
def buildFlowChain (g : Graph) : List String :=
  match findStartingProcess g with
  | none => []
  | some s =>
    dfsChain (fun p => sortStrings (processConnections g p))
      (fun c => (processNodes g).any (fun pn => pn.id == c))
      ((processNodes g).length + 1) s []

/-- The chain as the spec words it: a depth-first preorder from the start
node following sorted-by-target-id qualifying successors, each node visited
at most once (no extra guard). -/
def specFlowChain (g : Graph) : List String :=
  match findStartingProcess g with
  | none => []
  | some s =>
    dfsChain (fun p => sortStrings (processConnections g p)) (fun _ => true)
      ((processNodes g).length + 1) s []

/-- First index of a string in a list (`indexOf` when the element is present). -/
def idxOfStr : List String → String → Nat
  | [], _ => 0
  | a :: l, x => if a == x then 0 else idxOfStr l x + 1

/-- `buildBackwardsChain`'s recursion: shared visited set threaded through the
predecessor walk; each node is appended after its predecessors' chains. -/
def backwardAux (g : Graph) : Nat → String → List String → List String × List String
  | 0, _, vis => (vis, [])
  | fuel + 1, p, vis =>
    if vis.contains p then (vis, [])
    else
      let r :=
        (incomingConnections g p).foldl
          (fun (st : List String × List String) q =>
            let r2 := backwardAux g fuel q st.1
            (r2.1, st.2 ++ r2.2))
          (vis ++ [p], [])
      (r.1, r.2 ++ [p])

/-- `buildBackwardsChain(selected)` with a fresh visited set. -/
def buildBackwardsChain (g : Graph) (sel : String) : List String :=
  (backwardAux g (g.nodes.length + 2) sel []).2

/-- `relevantProcessIds`: the chain prefix through the selected process when it
is in the chain, otherwise the backwards chain from the selected process. -/
def relevantProcessIds (g : Graph) (sel : String) : List String :=
  let chain := buildFlowChain g
  if chain.contains sel then chain.take (idxOfStr chain sel + 1)
  else buildBackwardsChain g sel

/- ## Action replay (FlowEditor.getVisibleNodesWithFilteredFields, step 5) -/

/-- The cumulative replay state: referenced documents, documents with
document-level actions, referenced field names per document, and the
last-write-wins value override map. -/
structure ReplayState where
  referencedDocuments : List String
  documentsWithDocumentActions : List String
  documentFieldsMap : List (String × List String)
  cumulativeFieldValues : List (String × List (String × FieldValue))
deriving DecidableEq, BEq

/-- The empty replay state. -/
def initReplayState : ReplayState := ⟨[], [], [], []⟩

/-- Replaying one action, exactly as the `sortedActions.forEach` body does. -/
def stepAction (st : ReplayState) (a : Action) : ReplayState :=
  if a.atype == "document" then
    { st with
      referencedDocuments := addToSet st.referencedDocuments a.nodeId
      documentsWithDocumentActions := addToSet st.documentsWithDocumentActions a.nodeId }
  else if a.atype == "field" then
    let st1 := { st with referencedDocuments := addToSet st.referencedDocuments a.nodeId }
    let st2 := { st1 with
      documentFieldsMap :=
        setKV st1.documentFieldsMap a.nodeId
          (addToSet ((lookupKV st1.documentFieldsMap a.nodeId).getD []) a.fieldName) }
    match a.valueType with
    | some vt =>
      if vt == "" then st2
      else
        { st2 with
          cumulativeFieldValues :=
            setKV st2.cumulativeFieldValues a.nodeId
              (setKV ((lookupKV st2.cumulativeFieldValues a.nodeId).getD [])
                a.fieldName ⟨vt, a.fixedValue⟩) }
    | none => st2
  else st

/-- Stable insert keeping earlier-pushed actions of equal `savedAt` first. -/
def insertBySavedAt (a : Action) : List Action → List Action
  | [] => [a]
  | b :: l => if b.savedAt ≤ a.savedAt then b :: insertBySavedAt a l else a :: b :: l

/-- Stable ascending sort by `savedAt`, mirroring the JS stable sort with
comparator `timeA - timeB`. -/
def sortBySavedAt (l : List Action) : List Action :=
  l.foldl (fun acc a => insertBySavedAt a acc) []

/-- `processNode?.data.properties?.processActions || []`. -/
def actionsOf (g : Graph) (pid : String) : List Action :=
  match nodeById g pid with
  | some n => n.data.processActions
  | none => []

/-- All replayed actions in order: chain order over the relevant processes,
each process's actions sorted ascending by `savedAt`. -/
def flatActions (g : Graph) (rel : List String) : List Action :=
  rel.flatMap (fun pid => sortBySavedAt (actionsOf g pid))

/-- The full replay over the relevant processes, in chain order. -/
def replayRelevant (g : Graph) (rel : List String) : ReplayState :=
  rel.foldl (fun st pid => (sortBySavedAt (actionsOf g pid)).foldl stepAction st)
    initReplayState

/-- The override stored for `(nodeId, fieldName)` after replay. -/
def lookupFieldValue (st : ReplayState) (d f : String) : Option FieldValue :=
  match lookupKV st.cumulativeFieldValues d with
  | some inner => lookupKV inner f
  | none => none

/-- Whether an action writes the value-override entry for `(d, f)`: a field
action on the pair carrying a truthy `valueType`. -/
def writesField (a : Action) (d f : String) : Bool :=
  a.atype == "field" && a.nodeId == d && a.fieldName == f &&
    (match a.valueType with
     | some v => !(v == "")
     | none => false)

/- ## Visibility projection (FlowEditor, step 6) -/

/-- Attach `_cumulativeFieldValues` (the node's override map, or an empty map)
to a node's data. -/
def attachCumulative (st : ReplayState) (node : FlowNode) : FlowNode :=
  { node with
    data := { node.data with
      cumulativeFieldValues := some ((lookupKV st.cumulativeFieldValues node.id).getD []) } }

/-- The per-node projection of the `filteredNodes` mapping: process nodes pass
through; referenced documents/collections are field-filtered and annotated;
referenced array nodes pass through; everything else is dropped. -/
def projectNode (st : ReplayState) (node : FlowNode) : Option FlowNode :=
  if node.ntype == "process" then some node
  else if (node.ntype == "document" || node.ntype == "collection") &&
      st.referencedDocuments.contains node.id then
    match lookupKV st.documentFieldsMap node.id with
    | some rf =>
      if rf.isEmpty then some (attachCumulative st node)
      else
        some (attachCumulative st
          { node with
            data := { node.data with
              fields := node.data.fields.filter (fun fld => rf.contains fld.name) } })
    | none => some (attachCumulative st node)
  else if node.ntype == "array" && st.referencedDocuments.contains node.id then
    some node
  else none

/-- The result record returned by `getVisibleNodesWithFilteredFields`; the
document-action set is absent on the no-selection branch. -/
structure VisibleResult where
  nodes : List FlowNode
  cumulativeReferencedDocuments : List String
  cumulativeDocumentsWithDocumentActions : Option (List String)
  cumulativeReferencedFields : List (String × List String)
deriving DecidableEq, BEq

/-- `getVisibleNodesWithFilteredFields`: identity with empty sets when no
process is selected; otherwise chain, relevant prefix, replay and project. -/
def getVisibleNodesWithFilteredFields (g : Graph) (selectedProcessNode : Option String) :
    VisibleResult :=
  match selectedProcessNode with
  | none => ⟨g.nodes, [], none, []⟩
  | some sel =>
    let rel := relevantProcessIds g sel
    let st := replayRelevant g rel
    ⟨g.nodes.filterMap (projectNode st), st.referencedDocuments,
      some st.documentsWithDocumentActions, st.documentFieldsMap⟩

/- ## Connection Validator (FlowEditor.onConnect) -/

/-- Candidate connection parameters. -/
structure ConnParams where
  source : String
  target : String
  sourceHandle : Option String
  targetHandle : Option String
deriving DecidableEq, BEq

/-- JS falsiness of an optional handle string. -/
def strFalsy : Option String → Bool
  | none => true
  | some s => s == ""

/-- The source-handle direction gate at the top of `onConnect`. -/
def isValidSourceHandle (h : Option String) : Bool :=
  strFalsy h || h == some "right" || h == some "bottom" ||
    shStarts h "array-" || shStarts h "array-field-"

/-- The target-handle direction gate at the top of `onConnect`. -/
def isValidTargetHandle (h : Option String) : Bool :=
  strFalsy h || h == some "left" || h == some "top" ||
    h == some "input" || h == some "right"

/-- The accept/reject decision of `onConnect`, transcribed branch by branch. -/
def connectDecision (nodes : List FlowNode) (p : ConnParams) : Bool :=
  if !isValidSourceHandle p.sourceHandle then false
  else if !isValidTargetHandle p.targetHandle then false
  else
    match listNodeById nodes p.source, listNodeById nodes p.target with
    | some sourceNode, some targetNode =>
      if p.source == p.target then false
      else if (sourceNode.ntype == "document" || sourceNode.ntype == "collection") &&
          targetNode.ntype == "array" then
        if shStarts p.sourceHandle "array-" then
          match fieldAtHandle sourceNode p.sourceHandle 1 with
          | some f =>
            if f.ftype == "array" then
              p.targetHandle == some "left" || p.targetHandle == some "right"
            else false
          | none => false
        else false
      else if sourceNode.ntype == "array" && targetNode.ntype == "array" then
        if p.sourceHandle == some "right" || p.sourceHandle == some "left" then false
        else if !shStarts p.sourceHandle "array-field-" then false
        else p.targetHandle == some "left" || p.targetHandle == some "right"
      else if sourceNode.ntype == "array" && targetNode.ntype == "document" then false
      else if targetNode.ntype == "document" && shStarts p.targetHandle "array-" then false
      else if sourceNode.ntype == "process" || targetNode.ntype == "process" then true
      else if (sourceNode.ntype == "document" || sourceNode.ntype == "collection" ||
            sourceNode.ntype == "array") &&
          (targetNode.ntype == "document" || targetNode.ntype == "collection" ||
            targetNode.ntype == "array") then false
      else true
    | _, _ => false

/-- The edge record built on acceptance (`id: edge-...`, type custom). -/
def mkNewEdge (p : ConnParams) (now : Nat) : FlowEdge :=
  ⟨"edge-" ++ toString now, p.source, p.target, p.sourceHandle, p.targetHandle⟩

/-- react-flow `addEdge`: skip empty endpoints and exact duplicate
connections, otherwise append. -/
def addEdgeJs (e : FlowEdge) (eds : List FlowEdge) : List FlowEdge :=
  if e.source == "" || e.target == "" then eds
  else if eds.any (fun x =>
      x.source == e.source && x.target == e.target &&
      x.sourceHandle == e.sourceHandle && x.targetHandle == e.targetHandle) then eds
  else eds ++ [e]

/-- The edge list after an `onConnect` attempt: unchanged on rejection. -/
def edgesAfterConnect (nodes : List FlowNode) (edges : List FlowEdge)
    (p : ConnParams) (now : Nat) : List FlowEdge :=
  if connectDecision nodes p then addEdgeJs (mkNewEdge p now) edges else edges

/- ## Derived-Name Resolver (FlowEditor.updateArrayNodeNames) -/

/-- Whether a target handle is one of the array-node input handles the
resolver looks for. -/
def inputHandleB (h : Option String) : Bool :=
  h == some "left" || h == some "right" || h == some "input"

/-- The first edge connecting into the node on an input handle
(`edges.find(...)` in `updateArrayNodeNames`). -/
def firstInboundInputEdge (edges : List FlowEdge) (node : FlowNode) : Option FlowEdge :=
  edges.find? (fun e => e.target == node.id && inputHandleB e.targetHandle)

/-- The per-node body of `updateArrayNodeNames`. -/
def resolveArrayNode (nodes : List FlowNode) (edges : List FlowEdge)
    (node : FlowNode) : FlowNode :=
  if !(node.ntype == "array") then node
  else
    match firstInboundInputEdge edges node with
    | some ce =>
      match listNodeById nodes ce.source with
      | some sourceNode =>
        if (sourceNode.ntype == "document" || sourceNode.ntype == "collection") &&
            shStarts ce.sourceHandle "array-" then
          match fieldAtHandle sourceNode ce.sourceHandle 1 with
          | some f =>
            if f.ftype == "array" && !(node.data.label == f.name) then
              { node with
                data := { node.data with
                  label := f.name
                  connectedFieldName := some f.name
                  sourceLabel := some sourceNode.data.label
                  isAutoNamed := true } }
            else node
          | none => node
        else if sourceNode.ntype == "array" && shStarts ce.sourceHandle "array-field-" then
          match fieldAtHandle sourceNode ce.sourceHandle 2 with
          | some f =>
            if f.ftype == "array" && !(node.data.label == f.name) then
              { node with
                data := { node.data with
                  label := f.name
                  connectedFieldName := some f.name
                  sourceLabel := some (sourceNode.data.label ++ " → " ++ f.name)
                  isAutoNamed := true } }
            else node
          | none => node
        else node
      | none => node
    | none =>
      if node.data.isAutoNamed then
        { node with
          data := { node.data with
            label := "Unconnected Array"
            connectedFieldName := none
            sourceLabel := none
            isAutoNamed := false } }
      else node

/-- `updateArrayNodeNames`: map the resolver over all nodes. -/
def updateArrayNodeNames (nodes : List FlowNode) (edges : List FlowEdge) :
    List FlowNode :=
  nodes.map (resolveArrayNode nodes edges)

/- ## Undo/Redo journal and separators (FlowEditor + DatabaseContext) -/

/-- A canvas separator. -/
structure Separator where
  id : String
  x : Int
  label : String
  color : String
deriving DecidableEq, BEq

/-- A recorded undo-journal entry. -/
inductive HistRecord where
  | deleteNode (node : FlowNode) (edges : List FlowEdge)
  | deleteEdge (edge : FlowEdge)
  | deleteSeparator (sep : Separator)
  | addNode (node : FlowNode)
  | addEdge (edge : FlowEdge)
deriving DecidableEq, BEq

/-- The editor state touched by the undo journal. -/
structure EditorState where
  nodes : List FlowNode
  edges : List FlowEdge
  separators : List Separator
  undoHistory : List HistRecord
  redoHistory : List HistRecord
deriving DecidableEq, BEq

/-- Keep the last `n` elements (`prev.slice(-n)`). -/
def takeLast {α : Type} (n : Nat) (l : List α) : List α :=
  l.drop (l.length - n)

/-- `saveStateForUndo`: cap the journal at 20 and clear the redo stack. -/
def saveStateForUndo (st : EditorState) (rec : HistRecord) : EditorState :=
  { st with
    undoHistory := takeLast 19 st.undoHistory ++ [rec]
    redoHistory := [] }

/-- `DatabaseContext.updateSeparator`: map over existing separators, replacing
the matching one; a removed id matches nothing and the list is unchanged. -/
def updateSeparatorJs (seps : List Separator) (id : String) (data : Separator) :
    List Separator :=
  seps.map (fun s => if s.id == id then data else s)

/-- `DatabaseContext.removeSeparator`. -/
def removeSeparatorJs (seps : List Separator) (id : String) : List Separator :=
  seps.filter (fun s => !(s.id == id))

/-- `handleDeleteSeparator`: record the journal entry, then remove. -/
def handleDeleteSeparator (st : EditorState) (sepId : String) : EditorState :=
  match st.separators.find? (fun s => s.id == sepId) with
  | none => st
  | some sep =>
    let st1 := saveStateForUndo st (.deleteSeparator sep)
    { st1 with separators := removeSeparatorJs st1.separators sepId }

/-- `performUndo`: apply the inverse of the most recent record and move it to
the redo stack; the DELETE_SEPARATOR case calls `updateSeparator`. -/
def performUndo (st : EditorState) : EditorState :=
  match st.undoHistory.getLast? with
  | none => st
  | some rec =>
    let st1 :=
      match rec with
      | .deleteNode n es =>
        { st with
          nodes := st.nodes ++ [n]
          edges := if es.isEmpty then st.edges else st.edges ++ es }
      | .deleteEdge e => { st with edges := st.edges ++ [e] }
      | .deleteSeparator s =>
        { st with separators := updateSeparatorJs st.separators s.id s }
      | .addNode n => { st with nodes := st.nodes.filter (fun m => !(m.id == n.id)) }
      | .addEdge e => { st with edges := st.edges.filter (fun x => !(x.id == e.id)) }
    { st1 with
      redoHistory := st1.redoHistory ++ [rec]
      undoHistory := st1.undoHistory.dropLast }

/- ## Persistence sanitiser (firestoreService) -/

/-- A JSON-ish JS value, including the `undefined` Firestore rejects. -/
inductive JsValue where
  | undef : JsValue
  | nul : JsValue
  | boolv : Bool → JsValue
  | num : Int → JsValue
  | str : String → JsValue
  | arr : List JsValue → JsValue
  | obj : List (String × JsValue) → JsValue

/-- Whether a value is `undefined`. -/
def isUndef : JsValue → Bool
  | .undef => true
  | _ => false

mutual

/-- `cleanUndefinedValues`: null for null/undefined, recurse through arrays,
drop undefined-valued keys of objects, pass primitives through. -/
def cleanUndefinedValues : JsValue → JsValue
  | .undef => .nul
  | .nul => .nul
  | .boolv b => .boolv b
  | .num n => .num n
  | .str s => .str s
  | .arr l => .arr (cleanList l)
  | .obj l => .obj (cleanObj l)

/-- Clean every element of an array. -/
def cleanList : List JsValue → List JsValue
  | [] => []
  | v :: vs => cleanUndefinedValues v :: cleanList vs

/-- Keep and clean only the entries whose value is not `undefined`. -/
def cleanObj : List (String × JsValue) → List (String × JsValue)
  | [] => []
  | (k, v) :: rest =>
    if isUndef v then cleanObj rest
    else (k, cleanUndefinedValues v) :: cleanObj rest

end

mutual

/-- No `undefined` occurs anywhere in the value. -/
def noUndef : JsValue → Bool
  | .undef => false
  | .nul => true
  | .boolv _ => true
  | .num _ => true
  | .str _ => true
  | .arr l => noUndefList l
  | .obj l => noUndefObj l

/-- No `undefined` occurs in any array element. -/
def noUndefList : List JsValue → Bool
  | [] => true
  | v :: vs => noUndef v && noUndefList vs

/-- No `undefined` occurs in any object entry. -/
def noUndefObj : List (String × JsValue) → Bool
  | [] => true
  | (_, v) :: rest => noUndef v && noUndefObj rest

end

/-- The document written by `saveFlowchart`: every graph collection passes
through `cleanUndefinedValues` before being stored. -/
def saveFlowchartPayload (flowchartId : String)
    (nodes edges collections separators : JsValue) (dbType : String) :
    List (String × JsValue) :=
  [("id", .str flowchartId),
   ("nodes", cleanUndefinedValues nodes),
   ("edges", cleanUndefinedValues edges),
   ("collections", cleanUndefinedValues collections),
   ("separators", cleanUndefinedValues separators),
   ("dbType", .str dbType),
   ("updatedAt", .str "serverTimestamp"),
   ("createdAt", .str "serverTimestamp")]

/- ## Claim-side predicates -/

/-- Claim C4 as stated: all process nodes visible; document/array nodes
visible iff referenced; every referenced document/array node with a
non-empty referenced-field set is shown with exactly the referenced fields
and the override map attached; a referenced node with no referenced fields
keeps all its fields. -/
def claimVisibilityHolds (g : Graph) (sel : String) : Bool :=
  let r := getVisibleNodesWithFilteredFields g (some sel)
  let st := replayRelevant g (relevantProcessIds g sel)
  ((processNodes g).all (fun p => r.nodes.any (fun m => m == p))) &&
  (g.nodes.all (fun n =>
    if n.ntype == "document" || n.ntype == "collection" || n.ntype == "array" then
      (r.nodes.any (fun m => m.id == n.id)) == r.cumulativeReferencedDocuments.contains n.id
    else true)) &&
  (g.nodes.all (fun n =>
    if (n.ntype == "document" || n.ntype == "collection" || n.ntype == "array") &&
        r.cumulativeReferencedDocuments.contains n.id then
      match lookupKV r.cumulativeReferencedFields n.id with
      | some rf =>
        if rf.isEmpty then
          r.nodes.any (fun m => m.id == n.id && m.data.fields == n.data.fields)
        else
          r.nodes.any (fun m => m.id == n.id &&
            m.data.fields == n.data.fields.filter (fun fld => rf.contains fld.name) &&
            m.data.cumulativeFieldValues ==
              some ((lookupKV st.cumulativeFieldValues n.id).getD []))
      | none => r.nodes.any (fun m => m.id == n.id && m.data.fields == n.data.fields)
    else true))

/-- The amended per-node visibility contract: process nodes pass through;
array nodes pass through unchanged exactly when referenced (no field
filtering, no override map); document/collection nodes are shown exactly
when referenced, field-filtered when a non-empty referenced-field set
exists, always with the override map attached; all other nodes dropped. -/
def projOkProp (st : ReplayState) (n : FlowNode) : Prop :=
  (n.ntype = "process" → projectNode st n = some n) ∧
  (n.ntype = "array" →
    (st.referencedDocuments.contains n.id = true → projectNode st n = some n) ∧
    (st.referencedDocuments.contains n.id = false → projectNode st n = none)) ∧
  ((n.ntype = "document" ∨ n.ntype = "collection") →
    (st.referencedDocuments.contains n.id = false → projectNode st n = none) ∧
    (st.referencedDocuments.contains n.id = true →
      (∀ rf, lookupKV st.documentFieldsMap n.id = some rf → rf ≠ [] →
        projectNode st n = some (attachCumulative st
          { n with data := { n.data with
              fields := n.data.fields.filter (fun fld => rf.contains fld.name) } })) ∧
      ((lookupKV st.documentFieldsMap n.id = none ∨
          lookupKV st.documentFieldsMap n.id = some []) →
        projectNode st n = some (attachCumulative st n))))

/-- The field named by the first inbound input-handle edge that matches the
spec's notion of a qualifying edge: from a document/collection field-output
handle whose resolved field has type `array`. -/
def claimQualifyingField (nodes : List FlowNode) (edges : List FlowEdge)
    (node : FlowNode) : Option Field :=
  (edges.filterMap (fun e =>
    if e.target == node.id && inputHandleB e.targetHandle then
      match listNodeById nodes e.source with
      | some s =>
        if (s.ntype == "document" || s.ntype == "collection") &&
            shStarts e.sourceHandle "array-" then
          match fieldAtHandle s e.sourceHandle 1 with
          | some f => if f.ftype == "array" then some f else none
          | none => none
        else none
      | none => none
    else none)).head?

/-- Claim C7 as stated: an array node with a qualifying inbound edge gets the
field's name and `isAutoNamed = true`; one with no qualifying inbound edge
that was auto-named is reset to the placeholder. -/
def claimAutoNameHolds (nodes : List FlowNode) (edges : List FlowEdge) : Bool :=
  (nodes.zip (updateArrayNodeNames nodes edges)).all (fun pr =>
    let n := pr.1
    let r := pr.2
    if n.ntype == "array" then
      match claimQualifyingField nodes edges n with
      | some f => r.data.label == f.name && r.data.isAutoNamed
      | none =>
        if n.data.isAutoNamed then
          r.data.label == "Unconnected Array" && r.data.isAutoNamed == false
        else true
    else true)

/- ## Concrete instances used by witnesses and counterexamples -/

/-- Earlier fixed-value write used in the C1 witness. -/
def axC1 : Action := ⟨"field", "d1", "f1", some "fixed", some "x", 1⟩

/-- Later fixed-value write used in the C1 witness. -/
def ayC1 : Action := ⟨"field", "d1", "f1", some "fixed", some "y", 2⟩

/-- Two chained processes writing the same field. -/
def gC1 : Graph :=
  ⟨[mkNode "p1" "process" "P1" [] [axC1], mkNode "p2" "process" "P2" [] [ayC1]],
   [⟨"e1", "p1", "p2", some "right", some "left"⟩]⟩

/-- A two-process chain `p1 → p2` used by the C3 witness. -/
def gC3 : Graph :=
  ⟨[mkNode "p1" "process" "P1" [] [], mkNode "p2" "process" "P2" [] []],
   [⟨"e1", "p1", "p2", some "right", some "left"⟩]⟩

/-- The array node referenced by a field action in `gC4`. -/
def arrC4 : FlowNode :=
  mkNode "a1" "array" "tags" [⟨"tags", "array"⟩, ⟨"x", "string"⟩] []

/-- A process whose field action targets an array node: the projection shows
the array node with all of its fields, unfiltered. -/
def gC4 : Graph :=
  ⟨[mkNode "p1" "process" "P1" [] [⟨"field", "a1", "tags", some "fixed", some "v", 1⟩],
    arrC4], []⟩

/-- An array node and a process node: connecting from the array node's
`right` input handle to the process is accepted by `onConnect`. -/
def nodesC5 : List FlowNode :=
  [mkNode "a1" "array" "A" [] [], mkNode "p1" "process" "P" [] []]

/-- The connection attempt from the array input handle to the process. -/
def pC5 : ConnParams := ⟨"a1", "p1", some "right", some "left"⟩

/-- Array and document nodes for the C6 witness. -/
def nodesC6 : List FlowNode :=
  [mkNode "a1" "array" "A" [⟨"inner", "array"⟩] [], mkNode "d1" "document" "D" [] []]

/-- An attempted edge from the array node's field-output port to the document. -/
def pC6 : ConnParams := ⟨"a1", "d1", some "array-field-0-right", some "left"⟩

/-- A pre-existing edge, to show the edge list is returned unchanged. -/
def e0C6 : FlowEdge := ⟨"e9", "x", "y", none, none⟩

/-- A document with an `array`-typed field `tags`. -/
def docC7 : FlowNode := mkNode "d1" "document" "Doc" [⟨"tags", "array"⟩] []

/-- An array node already labelled `tags` but not auto-named. -/
def arrC7 : FlowNode := mkNode "a1" "array" "tags" [] []

/-- An unconnected-labelled array node used for the rename witness. -/
def arrC7b : FlowNode := mkNode "a2" "array" "Unconnected Array" [] []

/-- A previously auto-named array node with no inbound edge. -/
def arrC7c : FlowNode :=
  ⟨"a3", "array", ⟨"tags", [], [], some "tags", some "Doc", true, none⟩⟩

/-- The qualifying edge from the document's `tags` output to the array node. -/
def edgeC7 : FlowEdge := ⟨"e1", "d1", "a1", some "array-0-right", some "left"⟩

/-- The qualifying edge into the rename-witness array node. -/
def edgeC7b : FlowEdge := ⟨"e2", "d1", "a2", some "array-0-right", some "left"⟩

/-- The separator deleted and (unsuccessfully) restored in the C8 scenario. -/
def sepC8 : Separator := ⟨"sep1", 100, "Section", "#3b82f6"⟩

/-- Editor state holding just that separator. -/
def stC8 : EditorState := ⟨[], [], [sepC8], [], []⟩

/- ## Association-list lemmas -/

theorem lookupKV_setKV_self {V : Type} (m : List (String × V)) (k : String) (v : V) :
    lookupKV (setKV m k v) k = some v := by
  induction m with
  | nil => simp [setKV, lookupKV]
  | cons p rest ih =>
    by_cases h : (p.1 == k) = true
    · simp [setKV, h, lookupKV]
    · simp [setKV, h, lookupKV, ih]

theorem lookupKV_setKV_ne {V : Type} (m : List (String × V)) (k q : String) (v : V)
    (h : (k == q) = false) : lookupKV (setKV m k v) q = lookupKV m q := by
  induction m with
  | nil => simp [setKV, lookupKV, h]
  | cons p rest ih =>
    by_cases h2 : (p.1 == k) = true
    · have hp : p.1 = k := by simpa using h2
      simp [setKV, h2, lookupKV, h, hp]
    · by_cases hq : (p.1 == q) = true
      · simp [setKV, h2, lookupKV, hq]
      · simp [setKV, h2, lookupKV, hq, ih]

/- ## C9: persistence sanitiser -/

mutual

theorem noUndef_clean : ∀ v : JsValue, noUndef (cleanUndefinedValues v) = true
  | .undef => rfl
  | .nul => rfl
  | .boolv _ => rfl
  | .num _ => rfl
  | .str _ => rfl
  | .arr l => by
      simp only [cleanUndefinedValues, noUndef]
      exact noUndefList_cleanList l
  | .obj l => by
      simp only [cleanUndefinedValues, noUndef]
      exact noUndefObj_cleanObj l

theorem noUndefList_cleanList : ∀ l : List JsValue, noUndefList (cleanList l) = true
  | [] => rfl
  | v :: vs => by
      simp only [cleanList, noUndefList, Bool.and_eq_true]
      exact ⟨noUndef_clean v, noUndefList_cleanList vs⟩

theorem noUndefObj_cleanObj :
    ∀ l : List (String × JsValue), noUndefObj (cleanObj l) = true
  | [] => rfl
  | (k, v) :: rest => by
      by_cases h : isUndef v = true
      · simp only [cleanObj, h, if_true]
        exact noUndefObj_cleanObj rest
      · simp only [cleanObj, h, if_false, noUndefObj, Bool.and_eq_true]
        exact ⟨noUndef_clean v, noUndefObj_cleanObj rest⟩

end

/-- C9: the recursive sanitise pass removes every `undefined` at any depth
(undefined-valued object keys are dropped, so no `undefined` survives), and
the flowchart payload written by `saveFlowchart` is built from sanitised
values only, hence itself contains no `undefined`. -/
theorem c9_sanitize_no_undefined :
    (∀ v : JsValue, noUndef (cleanUndefinedValues v) = true) ∧
    (∀ (flowchartId : String) (nodes edges collections separators : JsValue)
        (dbType : String),
      noUndefObj
        (saveFlowchartPayload flowchartId nodes edges collections separators dbType) =
        true) := by
  refine ⟨noUndef_clean, ?_⟩
  intro flowchartId nodes edges collections separators dbType
  simp [saveFlowchartPayload, noUndefObj, noUndef, noUndef_clean]

/- ## C10: no-selection identity -/

/-- C10: with no process selected the visibility projection returns exactly
the input node list together with an empty referenced-document set and an
empty referenced-field map. -/
theorem c10_no_selection_identity (g : Graph) :
    getVisibleNodesWithFilteredFields g none = ⟨g.nodes, [], none, []⟩ := rfl

/- ## C8: separator undo -/

/-- C8 evidence: deleting the only separator and undoing does not restore it —
`performUndo` routes DELETE_SEPARATOR through `updateSeparator`, which maps
over the (now empty) separator list and cannot re-insert, leaving the
separator set empty instead of restoring the pre-action set. -/
theorem c8_separator_undo_bug :
    (performUndo (handleDeleteSeparator stC8 "sep1")).separators = [] ∧
    stC8.separators = [sepC8] := by
  exact ⟨by decide, rfl⟩

/- ## Counterexamples -/

/-- C4 counterexample: in `gC4` the selected process references field `tags`
of the array node `a1`, yet the projection shows `a1` with its full field
list and no attached override map, so the claim as stated fails. -/
theorem c4_counterexample : claimVisibilityHolds gC4 "p1" = false := by decide

/-- C5 counterexample: the source endpoint is the array node's `right` input
handle, yet the connection to a process node is accepted and an edge is
added, contradicting the claim that such sources are always rejected. -/
theorem c5_counterexample :
    (listNodeById nodesC5 pC5.source).map (fun n => n.ntype) = some "array" ∧
    pC5.sourceHandle = some "right" ∧
    edgesAfterConnect nodesC5 [] pC5 7 = [mkNewEdge pC5 7] := by
  exact ⟨rfl, rfl, by decide⟩

/-- C7 counterexample: the array node has a qualifying inbound edge from the
document's `tags` field, but because its label already equals `tags` the
resolver leaves it unchanged and never sets `isAutoNamed`, so the claim as
stated fails. -/
theorem c7_counterexample : claimAutoNameHolds [docC7, arrC7] [edgeC7] = false := by
  decide

/- ## C1: last-write-wins replay -/

theorem foldl_step_flatMap (f : String → List Action) :
    ∀ (rel : List String) (st : ReplayState),
      rel.foldl (fun s pid => (f pid).foldl stepAction s) st =
        (rel.flatMap f).foldl stepAction st := by
  intro rel
  induction rel with
  | nil => intro st; rfl
  | cons pid rest ih =>
    intro st
    simp only [List.foldl_cons, List.flatMap_cons, List.foldl_append]
    exact ih _

theorem replayRelevant_eq_foldl (g : Graph) (rel : List String) :
    replayRelevant g rel = (flatActions g rel).foldl stepAction initReplayState := by
  exact foldl_step_flatMap (fun pid => sortBySavedAt (actionsOf g pid)) rel initReplayState

theorem lookupFieldValue_stepAction_skip (st : ReplayState) (a : Action) (d f : String)
    (h : writesField a d f = false) :
    lookupFieldValue (stepAction st a) d f = lookupFieldValue st d f := by
  unfold stepAction
  by_cases h1 : (a.atype == "document") = true
  · simp [h1, lookupFieldValue]
  · by_cases h2 : (a.atype == "field") = true
    · cases hv : a.valueType with
      | none => simp [h1, h2, hv, lookupFieldValue]
      | some vt =>
        by_cases h3 : (vt == "") = true
        · simp [h1, h2, hv, h3, lookupFieldValue]
        · simp only [writesField, h2, hv, h3, Bool.true_and, Bool.not_false,
            Bool.and_true, Bool.and_eq_false_iff] at h
          by_cases hd : (a.nodeId == d) = true
          · have hdd : a.nodeId = d := by simpa using hd
            have hf : (a.fieldName == f) = false := by
              rcases h with h | h
              · rw [hd] at h; exact absurd h (by simp)
              · exact h
            simp only [h1, h2, hv, h3, if_false, if_true, Bool.false_eq_true,
              lookupFieldValue, hdd]
            rw [lookupKV_setKV_self]
            cases hlk : lookupKV st.cumulativeFieldValues d with
            | none => simp [setKV, lookupKV, hf]
            | some inner => simp [lookupKV_setKV_ne _ _ _ _ hf]
          · have hdf : (a.nodeId == d) = false := by
              cases hx : (a.nodeId == d) with
              | false => rfl
              | true => exact absurd hx hd
            simp only [h1, h2, hv, h3, if_false, if_true, Bool.false_eq_true,
              lookupFieldValue]
            rw [lookupKV_setKV_ne _ _ _ _ hdf]
    · simp [h1, h2, lookupFieldValue]

theorem lookupFieldValue_foldl_skip (d f : String) :
    ∀ (l : List Action) (st : ReplayState),
      (∀ a ∈ l, writesField a d f = false) →
      lookupFieldValue (l.foldl stepAction st) d f = lookupFieldValue st d f := by
  intro l
  induction l with
  | nil => intro st _; rfl
  | cons a rest ih =>
    intro st hall
    simp only [List.foldl_cons]
    rw [ih _ (fun b hb => hall b (List.mem_cons_of_mem a hb)),
      lookupFieldValue_stepAction_skip st a d f (hall a (List.mem_cons_self a rest))]

theorem lookupFieldValue_stepAction_write (st : ReplayState) (a : Action)
    (d f vt : String) (h1 : a.atype = "field") (h2 : a.nodeId = d)
    (h3 : a.fieldName = f) (h4 : a.valueType = some vt) (h5 : (vt == "") = false) :
    lookupFieldValue (stepAction st a) d f = some ⟨vt, a.fixedValue⟩ := by
  subst h2 h3
  unfold stepAction
  simp only [h1, h4, h5, lookupFieldValue, if_false, if_true, Bool.false_eq_true]
  simp only [show ("field" == "document") = false from rfl,
    show ("field" == "field") = true from rfl, if_false, if_true, Bool.false_eq_true]
  rw [lookupKV_setKV_self]
  exact lookupKV_setKV_self _ _ _

/-- C1: replaying the relevant process set of a selected process in chain
order, actions sorted ascending by savedAt within each process, resolves each
(node, field) pair to its last write: with an earlier fixed write of x and a
later fixed write of y to the same field, and no further write after the
later one, the cumulative override map yields y. -/
theorem c1_last_write_wins (g : Graph) (sel : String) (d f x y : String)
    (l1 l2 l3 : List Action) (ax ay : Action)
    (hflat : flatActions g (relevantProcessIds g sel) = l1 ++ ax :: (l2 ++ ay :: l3))
    (_hax1 : ax.atype = "field") (_hax2 : ax.nodeId = d) (_hax3 : ax.fieldName = f)
    (_hax4 : ax.valueType = some "fixed") (_hax5 : ax.fixedValue = some x)
    (hay1 : ay.atype = "field") (hay2 : ay.nodeId = d) (hay3 : ay.fieldName = f)
    (hay4 : ay.valueType = some "fixed") (hay5 : ay.fixedValue = some y)
    (hlast : ∀ a ∈ l3, writesField a d f = false) :
    lookupFieldValue (replayRelevant g (relevantProcessIds g sel)) d f =
      some ⟨"fixed", some y⟩ := by
  rw [replayRelevant_eq_foldl, hflat, List.foldl_append]
  simp only [List.foldl_cons]
  rw [List.foldl_append]
  simp only [List.foldl_cons]
  rw [lookupFieldValue_foldl_skip d f l3 _ hlast,
    lookupFieldValue_stepAction_write _ ay d f "fixed" hay1 hay2 hay3 hay4 (by decide),
    hay5]

/-- C1 witness: two chained processes, the first writing x and the second y to
the same field; at the second process the cumulative map resolves to y. -/
theorem c1_last_write_wins_witness :
    lookupFieldValue (replayRelevant gC1 (relevantProcessIds gC1 "p2")) "d1" "f1" =
      some ⟨"fixed", some "y"⟩ := by
  exact c1_last_write_wins gC1 "p2" "d1" "f1" "x" "y" [] [] [] axC1 ayC1
    (by decide) rfl rfl rfl rfl rfl rfl rfl rfl rfl rfl
    (fun a ha => absurd ha (List.not_mem_nil a))

/- ## C2: the flow chain is the spec's depth-first preorder -/

theorem bool_and_left {a b : Bool} (h : (a && b) = true) : a = true := by
  cases a <;> simp_all

theorem bool_and_right {a b : Bool} (h : (a && b) = true) : b = true := by
  cases a <;> simp_all

theorem mem_insertStr (x a : String) (l : List String) :
    x ∈ insertStr a l ↔ x = a ∨ x ∈ l := by
  induction l with
  | nil => simp [insertStr]
  | cons b rest ih =>
    by_cases h : strLe a b = true
    · simp [insertStr, h, List.mem_cons]
    · simp only [insertStr, h, if_false, Bool.false_eq_true, List.mem_cons, ih]
      tauto

theorem mem_sortStrings (x : String) (l : List String) :
    x ∈ sortStrings l ↔ x ∈ l := by
  induction l with
  | nil => simp [sortStrings]
  | cons a rest ih => simp [sortStrings, mem_insertStr, ih, List.mem_cons]

theorem mem_processConnections_proc (g : Graph) (p c : String)
    (h : c ∈ processConnections g p) :
    ((processNodes g).any (fun pn => pn.id == c)) = true := by
  unfold processConnections at h
  rw [List.mem_map] at h
  obtain ⟨e, he, hec⟩ := h
  rw [List.mem_filter] at he
  have hqual : isQualifyingProcessEdge g e = true := bool_and_left he.2
  have htgt : (match nodeById g e.target with
      | some n => n.ntype == "process"
      | none => false) = true := by
    unfold isQualifyingProcessEdge at hqual
    exact bool_and_right (bool_and_left (bool_and_left hqual))
  cases hn : nodeById g e.target with
  | none => rw [hn] at htgt; exact absurd htgt (by simp)
  | some n =>
    rw [hn] at htgt
    have hn2 : g.nodes.find? (fun m => m.id == e.target) = some n := hn
    have hmem : n ∈ g.nodes := List.mem_of_find?_eq_some hn2
    have hid0 := List.find?_some hn2
    have hid : (n.id == e.target) = true := by simpa using hid0
    rw [List.any_eq_true]
    refine ⟨n, ?_, ?_⟩
    · rw [processNodes, List.mem_filter]
      exact ⟨hmem, htgt⟩
    · rw [← hec]
      exact hid

theorem dfsChain_guard_irrel (succ : String → List String) (guard : String → Bool)
    (hg : ∀ p c, c ∈ succ p → guard c = true) :
    ∀ (fuel : Nat) (s : String) (acc : List String),
      dfsChain succ guard fuel s acc = dfsChain succ (fun _ => true) fuel s acc := by
  intro fuel
  induction fuel with
  | zero => intro s acc; rfl
  | succ n ih =>
    intro s acc
    by_cases h : s ∈ acc
    · simp [dfsChain, h]
    · have hc : acc.contains s = false := by simpa using h
      simp only [dfsChain, hc, Bool.false_eq_true, if_false]
      apply List.foldl_ext
      intro b c hcm
      rw [hg s c hcm]
      simp only [if_true]
      exact ih c b

theorem foldl_preserve {α β : Type} (P : β → Prop) (f : β → α → β) (l : List α)
    (hf : ∀ b a, P b → P (f b a)) : ∀ b, P b → P (l.foldl f b) := by
  induction l with
  | nil => intro b hb; exact hb
  | cons a rest ih => intro b hb; exact ih _ (hf b a hb)

theorem nodup_concat_of (l : List String) (p : String) (h : l.Nodup) (hp : p ∉ l) :
    (l ++ [p]).Nodup := by
  simp [List.nodup_append, h, hp]

theorem dfsChain_nodup (succ : String → List String) (guard : String → Bool) :
    ∀ (fuel : Nat) (s : String) (acc : List String),
      acc.Nodup → (dfsChain succ guard fuel s acc).Nodup := by
  intro fuel
  induction fuel with
  | zero => intro s acc h; exact h
  | succ n ih =>
    intro s acc h
    by_cases hm : s ∈ acc
    · simp [dfsChain, hm, h]
    · have hc : acc.contains s = false := by simpa using hm
      simp only [dfsChain, hc, Bool.false_eq_true, if_false]
      refine foldl_preserve (fun x : List String => x.Nodup)
        (fun accx cx => if guard cx then dfsChain succ guard n cx accx else accx)
        (succ s) ?_ (acc ++ [s]) ?_
      · intro b c hb
        by_cases hgc : guard c = true
        · simp only [hgc, if_true]
          exact ih c b hb
        · simp only [hgc, if_false, Bool.false_eq_true]
          exact hb
      · exact nodup_concat_of _ _ h hm

/-- C2: the chain built by the resolver equals the spec's depth-first
preorder from the no-incoming-edge start (with the stated fallback),
following sorted-by-target-id qualifying successors, and visits each
process node at most once. -/
theorem c2_flow_chain_spec (g : Graph) :
    buildFlowChain g = specFlowChain g ∧ (buildFlowChain g).Nodup := by
  constructor
  · unfold buildFlowChain specFlowChain
    cases h : findStartingProcess g with
    | none => rfl
    | some s =>
      apply dfsChain_guard_irrel
      intro p c hc
      rw [mem_sortStrings] at hc
      exact mem_processConnections_proc g p c hc
  · unfold buildFlowChain
    cases h : findStartingProcess g with
    | none => simp
    | some s => exact dfsChain_nodup _ _ _ _ _ List.nodup_nil

/- ## C3: selection resolves to a chain prefix or the backwards chain -/

theorem getLast_append_single {α : Type} (l : List α) (a : α) :
    (l ++ [a]).getLast? = some a := by
  simp

theorem backwardAux_snd_getLast (g : Graph) (fuel : Nat) (p : String)
    (vis : List String) (h : vis.contains p = false) :
    (backwardAux g (fuel + 1) p vis).2.getLast? = some p := by
  simp only [backwardAux, h, Bool.false_eq_true, if_false]
  exact getLast_append_single _ _

theorem buildBackwardsChain_getLast (g : Graph) (sel : String) :
    (buildBackwardsChain g sel).getLast? = some sel := by
  unfold buildBackwardsChain
  exact backwardAux_snd_getLast g (g.nodes.length + 1) sel [] rfl

/-- C3: when the selected id sits at index i of the chain, the relevant
process set is the chain prefix through i; when it is absent, the relevant
set is the backwards predecessor chain ending with the selected node. -/
theorem c3_relevant_set (g : Graph) (sel : String) :
    ((buildFlowChain g).contains sel = true →
      relevantProcessIds g sel =
        (buildFlowChain g).take (idxOfStr (buildFlowChain g) sel + 1)) ∧
    ((buildFlowChain g).contains sel = false →
      relevantProcessIds g sel = buildBackwardsChain g sel ∧
      (relevantProcessIds g sel).getLast? = some sel) := by
  constructor
  · intro h
    simp only [relevantProcessIds]
    rw [h]
    simp
  · intro h
    have hr : relevantProcessIds g sel = buildBackwardsChain g sel := by
      simp only [relevantProcessIds]
      rw [h]
      simp
    exact ⟨hr, by rw [hr]; exact buildBackwardsChain_getLast g sel⟩

/-- C3 witness: in the chain `p1 → p2`, selecting p2 yields the prefix
[p1, p2]; selecting the absent p3 yields the backwards chain [p3]. -/
theorem c3_relevant_set_witness :
    relevantProcessIds gC3 "p2" = ["p1", "p2"] ∧
    relevantProcessIds gC3 "p3" = ["p3"] := by
  constructor
  · have h := (c3_relevant_set gC3 "p2").1 (by decide)
    rw [h]; decide
  · have h := ((c3_relevant_set gC3 "p3").2 (by decide)).1
    rw [h]; decide

/- ## C4 amended: the actual visibility projection -/

theorem projOk_all (st : ReplayState) (n : FlowNode) : projOkProp st n := by
  unfold projOkProp
  refine ⟨?_, ?_, ?_⟩
  · intro h
    simp [projectNode, h]
  · intro h
    constructor
    · intro hc
      have hm : n.id ∈ st.referencedDocuments := by simpa using hc
      simp [projectNode, h, hm]
    · intro hc
      have hm : n.id ∉ st.referencedDocuments := by simpa using hc
      simp [projectNode, h, hm]
  · intro h
    constructor
    · intro hc
      have hm : n.id ∉ st.referencedDocuments := by simpa using hc
      rcases h with h | h <;> simp [projectNode, h, hm]
    · intro hc
      have hm : n.id ∈ st.referencedDocuments := by simpa using hc
      constructor
      · intro rf hrf hne
        have hemp : rf.isEmpty = false := by
          cases rf with
          | nil => exact absurd rfl hne
          | cons a l => rfl
        rcases h with h | h <;> simp [projectNode, h, hm, hrf, hemp]
      · intro hlk
        rcases hlk with hlk | hlk <;> rcases h with h | h <;>
          simp [projectNode, h, hm, hlk, List.isEmpty]

/-- C4 amended: the projected node list is exactly the per-node projection in
which process nodes always pass through, document/collection nodes appear iff
referenced (field-filtered when a non-empty referenced-field set exists,
always with the override map attached), while referenced array nodes pass
through unchanged — no field filtering and no attached override map — and all
other nodes are omitted. -/
theorem c4_visibility_amended (g : Graph) (sel : String) :
    (getVisibleNodesWithFilteredFields g (some sel)).nodes =
      g.nodes.filterMap (projectNode (replayRelevant g (relevantProcessIds g sel))) ∧
    ∀ n, projOkProp (replayRelevant g (relevantProcessIds g sel)) n :=
  ⟨rfl, fun n => projOk_all _ n⟩

/-- C4 amended witness: at the counterexample graph the referenced array node
passes through the projection unchanged. -/
theorem c4_visibility_amended_witness :
    projectNode (replayRelevant gC4 (relevantProcessIds gC4 "p1")) arrC4 =
      some arrC4 := by
  have h := (c4_visibility_amended gC4 "p1").2 arrC4
  unfold projOkProp at h
  exact (h.2.1 rfl).1 (by decide)

/- ## C5 amended and C6: connection validator -/

theorem connectDecision_left_source_false (nodes : List FlowNode) (p : ConnParams)
    (hsh : p.sourceHandle = some "left") : connectDecision nodes p = false := by
  unfold connectDecision
  rw [hsh]
  have h1 : isValidSourceHandle (some "left") = false := by decide
  simp [h1]

theorem connectDecision_array_source_false (nodes : List FlowNode) (p : ConnParams)
    (s t : FlowNode) (hs : listNodeById nodes p.source = some s)
    (hst : s.ntype = "array") (ht : listNodeById nodes p.target = some t)
    (htt : t.ntype = "document" ∨ t.ntype = "collection" ∨ t.ntype = "array")
    (hsh : p.sourceHandle = some "right") : connectDecision nodes p = false := by
  unfold connectDecision
  rw [hs, ht, hsh]
  have e1 : isValidSourceHandle (some "right") = true := by decide
  have e2 : ((some "right" : Option String) == some "right") = true := by decide
  rcases htt with htt | htt | htt <;>
    simp [e1, e2, hst, htt]

/-- C5 amended: a connection sourced at an array node's `left` input handle is
always rejected, and one sourced at its `right` input handle is rejected
whenever the target is a document, collection or array node; only a process
target makes such a connection acceptable, so rejection is not independent of
the target's kind. -/
theorem c5_array_input_source_amended (nodes : List FlowNode)
    (edges : List FlowEdge) (p : ConnParams) (now : Nat) (s : FlowNode)
    (hs : listNodeById nodes p.source = some s) (hst : s.ntype = "array") :
    (p.sourceHandle = some "left" → edgesAfterConnect nodes edges p now = edges) ∧
    (∀ t, listNodeById nodes p.target = some t →
      (t.ntype = "document" ∨ t.ntype = "collection" ∨ t.ntype = "array") →
      p.sourceHandle = some "right" →
      edgesAfterConnect nodes edges p now = edges) := by
  constructor
  · intro hsh
    unfold edgesAfterConnect
    rw [connectDecision_left_source_false nodes p hsh]
    simp
  · intro t ht htt hsh
    unfold edgesAfterConnect
    rw [connectDecision_array_source_false nodes p s t hs hst ht htt hsh]
    simp

/-- C5 amended witness: an array-sourced `right`-handle connection to a
document node leaves the edge list unchanged. -/
theorem c5_array_input_source_amended_witness :
    edgesAfterConnect nodesC6 [e0C6] ⟨"a1", "d1", some "right", some "left"⟩ 3 =
      [e0C6] := by
  exact (c5_array_input_source_amended nodesC6 [e0C6]
      ⟨"a1", "d1", some "right", some "left"⟩ 3 (mkNode "a1" "array" "A"
        [⟨"inner", "array"⟩] []) (by decide) rfl).2
    (mkNode "d1" "document" "D" [] []) (by decide) (Or.inl rfl) rfl

/-- C6: any connection attempt from an array node to a document node is a
silent no-op — the validator rejects it and the edge list after the attempt
equals the edge list before it. -/
theorem c6_array_to_document_rejected (nodes : List FlowNode)
    (edges : List FlowEdge) (p : ConnParams) (now : Nat) (s t : FlowNode)
    (hs : listNodeById nodes p.source = some s) (hst : s.ntype = "array")
    (ht : listNodeById nodes p.target = some t) (htt : t.ntype = "document") :
    edgesAfterConnect nodes edges p now = edges := by
  unfold edgesAfterConnect
  have hdec : connectDecision nodes p = false := by
    unfold connectDecision
    rw [hs, ht]
    simp [hst, htt]
  rw [hdec]
  simp

/-- C6 witness: the attempt from the array node's field-output port to the
document leaves the pre-existing edge list unchanged. -/
theorem c6_array_to_document_rejected_witness :
    edgesAfterConnect nodesC6 [e0C6] pC6 3 = [e0C6] := by
  exact c6_array_to_document_rejected nodesC6 [e0C6] pC6 3
    (mkNode "a1" "array" "A" [⟨"inner", "array"⟩] [])
    (mkNode "d1" "document" "D" [] []) (by decide) rfl (by decide) rfl

/- ## C7 amended: the actual derived-name resolver behaviour -/

/-- C7 amended: the resolver renames an array node (and records provenance)
only when its first inbound input-handle edge comes from a document or
collection field-output handle whose field has type array and the current
label differs from the field's name; when the label already matches, the node
is left entirely unchanged (including `isAutoNamed`); and the placeholder
reset happens only when the node has no inbound edge on any input handle at
all and was previously auto-named. -/
theorem c7_array_naming_amended (nodes : List FlowNode) (edges : List FlowEdge)
    (node : FlowNode) :
    (updateArrayNodeNames nodes edges = nodes.map (resolveArrayNode nodes edges)) ∧
    (∀ ce s f, node.ntype = "array" →
      firstInboundInputEdge edges node = some ce →
      listNodeById nodes ce.source = some s →
      (s.ntype = "document" ∨ s.ntype = "collection") →
      shStarts ce.sourceHandle "array-" = true →
      fieldAtHandle s ce.sourceHandle 1 = some f →
      f.ftype = "array" →
      ((¬node.data.label = f.name →
        (resolveArrayNode nodes edges node).data.label = f.name ∧
        (resolveArrayNode nodes edges node).data.isAutoNamed = true ∧
        (resolveArrayNode nodes edges node).data.connectedFieldName = some f.name) ∧
       (node.data.label = f.name → resolveArrayNode nodes edges node = node))) ∧
    (node.ntype = "array" → firstInboundInputEdge edges node = none →
      node.data.isAutoNamed = true →
      (resolveArrayNode nodes edges node).data.label = "Unconnected Array" ∧
      (resolveArrayNode nodes edges node).data.isAutoNamed = false ∧
      (resolveArrayNode nodes edges node).data.connectedFieldName = none) := by
  refine ⟨rfl, ?_, ?_⟩
  · intro ce s f hn hce hs hst hsh hf hft
    constructor
    · intro hne
      have hl : (node.data.label == f.name) = false := by simp [hne]
      rcases hst with hst | hst <;>
        simp [resolveArrayNode, hn, hce, hs, hst, hsh, hf, hft, hl]
    · intro heq
      have hl : (node.data.label == f.name) = true := by simp [heq]
      rcases hst with hst | hst <;>
        simp [resolveArrayNode, hn, hce, hs, hst, hsh, hf, hft, hl]
  · intro hn hce hauto
    simp [resolveArrayNode, hn, hce, hauto]

/-- C7 amended witness: the resolver renames the placeholder-labelled array
node connected to the document's `tags` field, and resets a previously
auto-named node with no inbound edge. -/
theorem c7_array_naming_amended_witness :
    (resolveArrayNode [docC7, arrC7b] [edgeC7b] arrC7b).data.label = "tags" ∧
    (resolveArrayNode [docC7, arrC7b] [edgeC7b] arrC7b).data.isAutoNamed = true ∧
    (resolveArrayNode [docC7, arrC7c] [] arrC7c).data.label = "Unconnected Array" ∧
    (resolveArrayNode [docC7, arrC7c] [] arrC7c).data.isAutoNamed = false := by
  have h1 := (c7_array_naming_amended [docC7, arrC7b] [edgeC7b] arrC7b).2.1
    edgeC7b docC7 ⟨"tags", "array"⟩ rfl (by decide) (by decide) (Or.inl rfl)
    (by decide) (by decide) rfl
  have h2 := (c7_array_naming_amended [docC7, arrC7c] [] arrC7c).2.2 rfl rfl rfl
  obtain ⟨ha, hb, hcn⟩ := h1.1 (by decide)
  exact ⟨ha, hb, h2.1, h2.2.1⟩

end NFM
